import Mathlib

/-!
Shallow embedding of the transactional core of the Auctionus auction backend:
bid placement (`BidPlacementService._placeBid` and its helpers), the staged
round-finalization consumer (`AuctionProcessingService`), the periodic
scheduler (`AuctionSchedulerService.checkEndedAuctions`) and the distributed
lock service (`DistributedLockService.acquireLock`).

Modelling conventions:
- Mongo ObjectIds are `Nat`; `Date` values are `Nat` milliseconds.
- Monetary amounts are `Int` (Mongo numbers; `$inc` can drive them negative).
- A database state holds one auction together with its wallets, bids, items
  and transactions; a Mongo multi-document transaction is a pure function on
  that state, and an aborted transaction returns the unchanged state.
- JavaScript comparisons against possibly-`undefined` settings fields
  (`minBid`, `minBidDifference`, `antisniping`) follow JS semantics:
  a `<` comparison with `undefined` is `false`, and `undefined`/`0` are falsy.
- Mongo `.sort({amount: -1})` guarantees only the amount order; the order of
  equal keys is unspecified. The deterministic embedding uses a stable
  insertion sort; the relation `IsAmountDescOrderOf` captures every ordering
  the store is allowed to return and is used where tie order matters.
-/

namespace Auctionus

abbrev Id := Nat

abbrev Time := Nat

inductive BidStatus where
  | active
  | won
  | lost
deriving DecidableEq

inductive AuctionStatus where
  | active
  | ended
  | cancelled
deriving DecidableEq

inductive RoundProcessingStatus where
  | pending
  | active
  | processingWinners
  | processingTransfers
  | processingLosers
  | completed
  | failed
deriving DecidableEq

inductive TransactionType where
  | bid
  | increaseBid
  | transfer
deriving DecidableEq

structure AuctionSettings where
  antisniping : Option Nat
  minBid : Option Int
  minBidDifference : Option Int
deriving DecidableEq

structure AuctionRound where
  startTime : Time
  endTime : Time
  status : AuctionStatus
  processingStatus : Option RoundProcessingStatus
  itemIds : List Id
deriving DecidableEq

structure Auction where
  id : Id
  status : AuctionStatus
  sellerId : Id
  sellerWalletId : Id
  settings : AuctionSettings
  rounds : List AuctionRound
deriving DecidableEq

structure Wallet where
  id : Id
  userId : Id
  balance : Int
  lockedBalance : Int
deriving DecidableEq

structure Bid where
  id : Id
  userId : Id
  auctionId : Id
  amount : Int
  status : BidStatus
  createdAt : Time
deriving DecidableEq

structure Item where
  id : Id
  num : Int
  ownerId : Id
deriving DecidableEq

structure Txn where
  fromWalletId : Id
  toWalletId : Option Id
  amount : Int
  type : TransactionType
deriving DecidableEq

/-- Committed database state: the single auction under scrutiny plus the
collections the core mutates. -/
structure DB where
  auction : Auction
  wallets : List Wallet
  bids : List Bid
  items : List Item
  txns : List Txn
deriving DecidableEq

/-- JS `x < y` where `y` may be `undefined`: comparison with `undefined` is
`false` (used for `settings.minBid`). -/
def ltOpt (x : Int) (y : Option Int) : Bool :=
  match y with
  | some v => decide (x < v)
  | none => false

/-- JS `x < base + d` where `d` may be `undefined`: `base + undefined` is `NaN`
and the comparison is `false` (used for `settings.minBidDifference`). -/
def ltAddOpt (x base : Int) (d : Option Int) : Bool :=
  match d with
  | some v => decide (x < base + v)
  | none => false

/-- Mongo `updateOne` with a `userId` filter and `$inc` on balance fields:
increments the first wallet whose `userId` matches. -/
def walletIncFirst (uid : Id) (dBal dLock : Int) : List Wallet → List Wallet
  | [] => []
  | w :: ws =>
    if w.userId = uid then
      { w with balance := w.balance + dBal, lockedBalance := w.lockedBalance + dLock } :: ws
    else
      w :: walletIncFirst uid dBal dLock ws

/-- Stable insertion step for sorting bids by amount descending (ties keep
their relative order, which models one admissible Mongo result). -/
def insertBidByAmountDesc (b : Bid) : List Bid → List Bid
  | [] => [b]
  | c :: cs => if c.amount ≤ b.amount then b :: c :: cs else c :: insertBidByAmountDesc b cs

/-- Deterministic embedding of `.sort(\x7b amount: -1 \x7d)` on bids. -/
def sortBidsByAmountDesc : List Bid → List Bid
  | [] => []
  | b :: bs => insertBidByAmountDesc b (sortBidsByAmountDesc bs)

/-- Stable insertion step for sorting items by `num` ascending. -/
def insertItemByNumAsc (x : Item) : List Item → List Item
  | [] => [x]
  | y :: ys => if x.num ≤ y.num then x :: y :: ys else y :: insertItemByNumAsc x ys

/-- Deterministic embedding of `.sort(\x7b num: 1 \x7d)` on items. -/
def sortItemsByNumAsc : List Item → List Item
  | [] => []
  | x :: xs => insertItemByNumAsc x (sortItemsByNumAsc xs)

/-- Non-increasing amount order between adjacent bids. -/
def amountGE (x y : Bid) : Prop := y.amount ≤ x.amount

instance : IsTrans Bid amountGE := ⟨fun _ _ _ h1 h2 => le_trans h2 h1⟩

instance : DecidableRel amountGE := fun x y => inferInstanceAs (Decidable (y.amount ≤ x.amount))

/-- Non-decreasing end-time order between adjacent rounds. -/
def endTimeLE (r s : AuctionRound) : Prop := r.endTime ≤ s.endTime

instance : IsTrans AuctionRound endTimeLE := ⟨fun _ _ _ h1 h2 => le_trans h1 h2⟩

instance : DecidableRel endTimeLE := fun r s => inferInstanceAs (Decidable (r.endTime ≤ s.endTime))

/-- Every bid ordering the store may return for `.sort(\x7b amount: -1 \x7d)`:
a permutation of the input that is non-increasing in amount. Tie order is
unconstrained because the query has no secondary sort key. -/
def IsAmountDescOrderOf (input output : List Bid) : Prop :=
  output.Perm input ∧ List.Chain' amountGE output

inductive BidError where
  | auctionNotFound
  | auctionEnded
  | belowMinBid
  | notHigher
  | belowMinDifference
  | walletNotFound
  | notEnough
deriving DecidableEq

structure BidDto where
  userId : Id
  auctionId : Id
  amount : Int
deriving DecidableEq

inductive PlaceBidOutcome where
  | ok (amount : Int) (newEndDate : Time)
  | error (e : BidError)
deriving DecidableEq

/-- Embedding of `_getAuction`: load and validate the auction, then the
minimum-bid check (`amount < settings.minBid`, false when `minBid` is
undefined). -/
def getAuction (db : DB) (dto : BidDto) (now : Time) : Except BidError Auction :=
  if dto.auctionId ≠ db.auction.id then
    .error .auctionNotFound
  else if db.auction.status ≠ AuctionStatus.active
      ∨ db.auction.rounds.all (fun r => decide (r.endTime < now))
      ∨ db.auction.rounds.all (fun r => decide (r.status ≠ AuctionStatus.active)) then
    .error .auctionEnded
  else if ltOpt dto.amount db.auction.settings.minBid then
    .error .belowMinBid
  else
    .ok db.auction

/-- ACTIVE bids of the calling user on the requested auction
(the `findOne` filter of `_getMyBit`). -/
def activeBidsOfUser (db : DB) (dto : BidDto) : List Bid :=
  db.bids.filter fun b =>
    decide (b.auctionId = dto.auctionId) && decide (b.userId = dto.userId)
      && decide (b.status = BidStatus.active)

/-- Embedding of `_getMyBit`: highest ACTIVE bid of the user, with the
raise-path validations in source order. -/
def getMyBit (db : DB) (dto : BidDto) : Except BidError (Option Bid) :=
  match (sortBidsByAmountDesc (activeBidsOfUser db dto)).head? with
  | none => .ok none
  | some myBid =>
    if dto.amount ≤ myBid.amount then
      .error .notHigher
    else if ltOpt dto.amount db.auction.settings.minBid then
      .error .belowMinBid
    else if ltAddOpt dto.amount myBid.amount db.auction.settings.minBidDifference then
      .error .belowMinDifference
    else
      .ok (some myBid)

/-- Embedding of `_getMyWallet`. -/
def getMyWallet (db : DB) (dto : BidDto) : Except BidError Wallet :=
  match db.wallets.find? (fun w => decide (w.userId = dto.userId)) with
  | some w => .ok w
  | none => .error .walletNotFound

/-- Fresh ObjectId for a newly inserted bid. -/
def nextBidId (db : DB) : Id :=
  db.bids.foldl (fun m b => max m b.id) 0 + 1

/-- Embedding of `_updateBid`: raise path, locking the difference. -/
def updateBid (db : DB) (dto : BidDto) (myWallet : Wallet) (myBid : Bid) : Except BidError DB :=
  let amountDifference := dto.amount - myBid.amount
  let freeBalance := myWallet.balance - myWallet.lockedBalance
  if freeBalance < amountDifference then
    .error .notEnough
  else
    .ok { db with
      wallets := walletIncFirst dto.userId 0 amountDifference db.wallets,
      bids := db.bids.map fun b =>
        if b.id = myBid.id then { b with amount := dto.amount } else b,
      txns := db.txns ++
        [{ fromWalletId := myWallet.id, toWalletId := none,
           amount := amountDifference, type := TransactionType.increaseBid }] }

/-- Embedding of `_createBid`: first-bid path, locking the full amount. -/
def createBid (db : DB) (dto : BidDto) (myWallet : Wallet) (now : Time) : Except BidError DB :=
  let freeBalance := myWallet.balance - myWallet.lockedBalance
  if freeBalance < dto.amount then
    .error .notEnough
  else
    .ok { db with
      wallets := walletIncFirst dto.userId 0 dto.amount db.wallets,
      bids := db.bids ++
        [{ id := nextBidId db, userId := dto.userId, auctionId := dto.auctionId,
           amount := dto.amount, status := BidStatus.active, createdAt := now }],
      txns := db.txns ++
        [{ fromWalletId := myWallet.id, toWalletId := none,
           amount := dto.amount, type := TransactionType.bid }] }

/-- Iteration of `_checkAntisniping` over `rounds.filter(now < endTime)`:
a round in the window is pushed to the threshold only when the threshold
exceeds its end time, and only then does the threshold advance. -/
def antisnipePush (a : Nat) (now : Time) (threshold : Time) : List AuctionRound → List AuctionRound
  | [] => []
  | r :: rs =>
    if now < r.endTime then
      if threshold > r.endTime then
        { r with endTime := threshold } :: antisnipePush a now (threshold + 1000 * a) rs
      else
        r :: antisnipePush a now threshold rs
    else
      r :: antisnipePush a now threshold rs

/-- Rounds after the anti-sniping adjustment; `settings.antisniping` is used
under JS truthiness, so `undefined` and `0` disable the adjustment. -/
def antisnipedRounds (auction : Auction) (now : Time) : List AuctionRound :=
  match auction.settings.antisniping with
  | some a => if a ≠ 0 then antisnipePush a now (now + 1000 * a) auction.rounds else auction.rounds
  | none => auction.rounds

/-- Embedding of `_checkAntisniping`: adjust rounds, persist them, and return
the end time of the first round with `endTime > now`, rejecting when none
remains. -/
def checkAntisniping (db : DB) (now : Time) : Except BidError (DB × Time) :=
  let rounds2 := antisnipedRounds db.auction now
  match (rounds2.find? (fun r => decide (now < r.endTime))).map AuctionRound.endTime with
  | some newEndDate =>
    .ok ({ db with auction := { db.auction with rounds := rounds2 } }, newEndDate)
  | none => .error .auctionEnded

/-- Embedding of `_placeBid`: the body of the bid-placement transaction. -/
def placeBidTx (db : DB) (dto : BidDto) (now : Time) : Except BidError (DB × Time) :=
  match getAuction db dto now with
  | .error e => .error e
  | .ok _ =>
    match getMyBit db dto with
    | .error e => .error e
    | .ok myBid =>
      match getMyWallet db dto with
      | .error e => .error e
      | .ok myWallet =>
        match (match myBid with
               | some b => updateBid db dto myWallet b
               | none => createBid db dto myWallet now) with
        | .error e => .error e
        | .ok db2 => checkAntisniping db2 now

/-- Embedding of `placeBid`/`_placeBidWithTransaction`: the transaction body
runs inside a session; on any thrown error the session aborts, so the
committed state is the original one. -/
def placeBid (db : DB) (dto : BidDto) (now : Time) : DB × PlaceBidOutcome :=
  match placeBidTx db dto now with
  | .ok (db2, newEndDate) => (db2, .ok dto.amount newEndDate)
  | .error e => (db, .error e)

inductive Stage where
  | determineWinners
  | transferItems
  | processPayments
  | refundLosers
  | finalize
deriving DecidableEq

structure StageMsg where
  auctionId : Id
  roundIndex : Nat
  stage : Stage
deriving DecidableEq

/-- The consumer's `STAGE_ORDER` array. -/
def stageOrder : List Stage :=
  [Stage.determineWinners, Stage.transferItems, Stage.processPayments,
   Stage.refundLosers, Stage.finalize]

/-- Embedding of `_getNextStage`: advance in `STAGE_ORDER`, skipping
`REFUND_LOSERS` when the round is not the last one. -/
def getNextStage (current : Stage) (isLastRound : Bool) : Option Stage :=
  match stageOrder.findIdx? (fun s => decide (s = current)) with
  | none => none
  | some currentIndex =>
    let nextIndex :=
      if stageOrder[currentIndex + 1]? = some Stage.refundLosers ∧ isLastRound = false then
        currentIndex + 2
      else
        currentIndex + 1
    stageOrder[nextIndex]?

/-- Replace the element at an index, leaving other positions unchanged
(Mongo positional `$set` on `rounds.i`). -/
def modifyIdx (f : α → α) : Nat → List α → List α
  | _, [] => []
  | 0, x :: xs => f x :: xs
  | n + 1, x :: xs => x :: modifyIdx f n xs

/-- Embedding of `_updateRoundProcessingStatus`. -/
def setRoundProcessingStatus (db : DB) (i : Nat) (st : RoundProcessingStatus) : DB :=
  { db with auction := { db.auction with
      rounds := modifyIdx (fun r => { r with processingStatus := some st }) i db.auction.rounds } }

/-- Items of a round sorted by `num` ascending (`_getEntities` /
`_getWinningEntities` item query). -/
def itemsOfRound (db : DB) (r : AuctionRound) : List Item :=
  sortItemsByNumAsc (db.items.filter (fun it => r.itemIds.contains it.id))

/-- ACTIVE bids of the auction (`_getEntities` bid query, before the sort). -/
def activeAuctionBids (db : DB) : List Bid :=
  db.bids.filter fun b =>
    decide (b.auctionId = db.auction.id) && decide (b.status = BidStatus.active)

/-- WON bids of the auction (`_getWinningEntities` bid query, before the
sort). Note that the filter is auction-wide, not per round. -/
def wonAuctionBids (db : DB) : List Bid :=
  db.bids.filter fun b =>
    decide (b.auctionId = db.auction.id) && decide (b.status = BidStatus.won)

/-- Mongo `updateMany` flipping the listed bid ids to WON. -/
def markBidsWon (ids : List Id) (bids : List Bid) : List Bid :=
  bids.map fun b => if ids.contains b.id then { b with status := BidStatus.won } else b

/-- Mongo `.limit(n)` semantics: a limit of 0 means NO limit (the whole
result), otherwise the first `n` documents. -/
def mongoLimit (n : Nat) (l : List α) : List α :=
  if n = 0 then l else l.take n

/-- Body of `_stageDetermineWinners`, parametrized by the amount-descending
order the store returned for the ACTIVE bids. The bid query's
`.limit(items.length)` follows Mongo semantics: a round whose item query is
empty gives `limit(0)`, i.e. no limit at all. -/
def stageDetermineWinnersWith (db : DB) (i : Nat) (r : AuctionRound) (orderedActive : List Bid) : DB :=
  let db1 := setRoundProcessingStatus db i RoundProcessingStatus.processingWinners
  let items := itemsOfRound db r
  let topBids := mongoLimit items.length orderedActive
  { db1 with bids := markBidsWon (topBids.map Bid.id) db1.bids }

/-- Embedding of `_stageDetermineWinners` with the deterministic sort. -/
def stageDetermineWinners (db : DB) (i : Nat) (r : AuctionRound) : DB :=
  stageDetermineWinnersWith db i r (sortBidsByAmountDesc (activeAuctionBids db))

/-- Mongo `updateOne` on an item id setting its owner. -/
def setItemOwner (itemId newOwner : Id) (items : List Item) : List Item :=
  items.map fun it => if it.id = itemId then { it with ownerId := newOwner } else it

/-- Embedding of `_stageTransferItems`: pair items (by `num`) with WON bids
(by amount descending) and transfer ownership. -/
def stageTransferItems (db : DB) (i : Nat) (r : AuctionRound) : DB :=
  let db1 := setRoundProcessingStatus db i RoundProcessingStatus.processingTransfers
  let items := itemsOfRound db r
  let topBids := mongoLimit items.length (sortBidsByAmountDesc (wonAuctionBids db))
  let pairs := items.zip topBids
  { db1 with items := pairs.foldl (fun acc p => setItemOwner p.1.id p.2.userId acc) db1.items }

/-- Embedding of `_stageProcessPayments`: per winner `$inc` balance and
lockedBalance by the negated amount, credit the seller with the total, and
insert one TRANSFER transaction per winner. The transaction's
`fromWalletId` field receives `bid.userId`, exactly as in source. -/
def stageProcessPayments (db : DB) (r : AuctionRound) : DB :=
  let items := itemsOfRound db r
  let topBids := mongoLimit items.length (sortBidsByAmountDesc (wonAuctionBids db))
  let pairs := items.zip topBids
  if pairs.length = 0 then db
  else
    let walletsAfterWinners :=
      pairs.foldl (fun acc p => walletIncFirst p.2.userId (-p.2.amount) (-p.2.amount) acc) db.wallets
    let total := pairs.foldl (fun acc p => acc + p.2.amount) 0
    let wallets2 := walletIncFirst db.auction.sellerId total 0 walletsAfterWinners
    let newTxns := pairs.map fun p =>
      Txn.mk p.2.userId (some db.auction.sellerWalletId) p.2.amount TransactionType.transfer
    { db with wallets := wallets2, txns := db.txns ++ newTxns }

/-- Embedding of `_stageRefundLosers`: on the last round, flip every still
ACTIVE bid of the auction to LOST and unlock each bidder's amount. -/
def stageRefundLosers (db : DB) (i : Nat) (isLastRound : Bool) : DB :=
  if isLastRound = false then db
  else
    let db1 := setRoundProcessingStatus db i RoundProcessingStatus.processingLosers
    let losingBids := activeAuctionBids db
    if losingBids.length = 0 then db1
    else
      { db1 with
        bids := db1.bids.map fun b =>
          if decide (b.auctionId = db1.auction.id) && decide (b.status = BidStatus.active) then
            { b with status := BidStatus.lost }
          else b,
        wallets := losingBids.foldl (fun acc b => walletIncFirst b.userId 0 (-b.amount) acc) db1.wallets }

/-- Embedding of `_stageFinalize`: mark the round COMPLETED and ENDED, and end
the auction when the round is the last one. -/
def stageFinalize (db : DB) (i : Nat) (isLastRound : Bool) : DB :=
  let db1 := setRoundProcessingStatus db i RoundProcessingStatus.completed
  let rounds2 := modifyIdx (fun r => { r with status := AuctionStatus.ended }) i db1.auction.rounds
  let newStatus := if isLastRound then AuctionStatus.ended else db1.auction.status
  { db1 with auction := { db1.auction with rounds := rounds2, status := newStatus } }

inductive StageResult where
  | ok (next : Option StageMsg)
  | nackDrop
  | nackRequeue
deriving DecidableEq

/-- Embedding of `_executeStage`: validate auction and round, run the stage
body in a transaction, and publish the next stage after commit. No
`processingStatus` or round/auction status precondition is checked. -/
def executeStage (db : DB) (msg : StageMsg) : DB × StageResult :=
  if msg.auctionId ≠ db.auction.id then
    (db, .nackDrop)
  else
    match db.auction.rounds[msg.roundIndex]? with
    | none => (db, .nackDrop)
    | some r =>
      let isLastRound := decide (msg.roundIndex = db.auction.rounds.length - 1)
      let db2 :=
        match msg.stage with
        | .determineWinners => stageDetermineWinners db msg.roundIndex r
        | .transferItems => stageTransferItems db msg.roundIndex r
        | .processPayments => stageProcessPayments db r
        | .refundLosers => stageRefundLosers db msg.roundIndex isLastRound
        | .finalize => stageFinalize db msg.roundIndex isLastRound
      (db2, .ok ((getNextStage msg.stage isLastRound).map
        (fun s => StageMsg.mk msg.auctionId msg.roundIndex s)))

/-- Embedding of `_initializeProcessing` (the trigger handler): drop when the
auction is missing or not ACTIVE; otherwise publish `DETERMINE_WINNERS` for
every round with `status == ACTIVE` and `endTime < now`. `none` models a
dropped trigger, `some msgs` the published stage messages (the handler
itself commits no data change). -/
def initializeProcessing (db : DB) (msgAuctionId : Id) (now : Time) : Option (List StageMsg) :=
  if msgAuctionId ≠ db.auction.id then none
  else if db.auction.status ≠ AuctionStatus.active then none
  else
    some ((((List.range db.auction.rounds.length).filter fun i =>
      match db.auction.rounds[i]? with
      | some r => decide (r.status = AuctionStatus.active) && decide (r.endTime < now)
      | none => false)).map
        (fun i => StageMsg.mk msgAuctionId i Stage.determineWinners))

/-- Round indices for which a trigger delivery enqueues `DETERMINE_WINNERS`. -/
def triggeredIndices (db : DB) (msgAuctionId : Id) (now : Time) : List Nat :=
  ((initializeProcessing db msgAuctionId now).getD []).map StageMsg.roundIndex

/-- Embedding of the scheduler query in `checkEndedAuctions`: a Mongo filter
on array fields, so the `endTime` and `status` conditions may be satisfied
by different rounds. -/
def schedulerMatches (a : Auction) (now : Time) : Bool :=
  decide (a.status = AuctionStatus.active)
    && a.rounds.any (fun r => decide (r.endTime < now))
    && a.rounds.any (fun r => decide (r.status = AuctionStatus.active))

/-- Run stage messages the way the consumer chains them: execute, then follow
the published next-stage message until none is published (fuel bounds the
recursion). -/
def followStages : Nat → DB → StageMsg → DB
  | 0, db, _ => db
  | fuel + 1, db, msg =>
    match executeStage db msg with
    | (db2, StageResult.ok (some next)) => followStages fuel db2 next
    | (db2, _) => db2

/-- Wallet of a user (unique `userId` index). -/
def walletOfUser (db : DB) (uid : Id) : Option Wallet :=
  db.wallets.find? (fun w => decide (w.userId = uid))

/-- Item by ObjectId. -/
def itemOfId (db : DB) (itemId : Id) : Option Item :=
  db.items.find? (fun it => decide (it.id = itemId))

/-- Status of a bid by ObjectId. -/
def bidStatusOf (db : DB) (bidId : Id) : Option BidStatus :=
  (db.bids.find? (fun b => decide (b.id = bidId))).map Bid.status

/-- Sum of all lockedBalance fields. -/
def sumLocked (db : DB) : Int :=
  db.wallets.foldl (fun s w => s + w.lockedBalance) 0

/-- Sum of all balance fields. -/
def sumBalance (db : DB) : Int :=
  db.wallets.foldl (fun s w => s + w.balance) 0

/-- Number of WON bids. -/
def countWonBids (db : DB) : Nat :=
  (db.bids.filter (fun b => decide (b.status = BidStatus.won))).length

/-- Entry of the lock cache: key, holder token, and optional expiry. -/
structure LockEntry where
  key : Nat
  token : Nat
  expiresAt : Option Time
deriving DecidableEq

/-- Redis GET through the cache manager. -/
def cacheGet (cache : List LockEntry) (key : Nat) : Option Nat :=
  (cache.find? (fun e => decide (e.key = key))).map LockEntry.token

/-- The `cacheManager.set(lockKey, lockToken)` call of `acquireLock`: the
source passes no TTL, so the stored entry carries no expiry. -/
def cacheSetNoTtl (cache : List LockEntry) (key token : Nat) : List LockEntry :=
  LockEntry.mk key token none :: cache.filter (fun e => decide (e.key ≠ key))

/-- Embedding of `DistributedLockService.acquireLock`: fail if an entry
exists, otherwise store the token (without TTL) and verify the re-read.
The source signature has no TTL parameter at all. -/
def acquireLock (cache : List LockEntry) (key lockToken : Nat) : List LockEntry × Option Nat :=
  match cacheGet cache key with
  | some _ => (cache, none)
  | none =>
    let cache2 := cacheSetNoTtl cache key lockToken
    if cacheGet cache2 key = some lockToken then (cache2, some lockToken)
    else (cache2, none)

/-- Whether a stored lock entry is still present (not expired) at a time. -/
def entryLiveAt (e : LockEntry) (now : Time) : Bool :=
  match e.expiresAt with
  | none => true
  | some t => decide (now < t)

/-- Options recognized by `withLock`/`acquireLockWithPubSub` in source:
acquisition wait settings only; no TTL field exists. -/
structure WithLockOptions where
  timeoutMs : Nat
  maxAttempts : Nat
deriving DecidableEq

/-! ### Concrete scenarios

Users: 1 (bidder A), 2 (bidder B), 3 (seller). Wallets 10, 20, 30. The
auction has ObjectId 5. Item ObjectIds are 100 and 101. All balances start
at 1000 with nothing locked. -/

/-- Single-round auction state before any bid: one item (id 100), round ends
at time 1000. -/
def dbOne0 : DB :=
  { auction :=
      { id := 5, status := AuctionStatus.active, sellerId := 3, sellerWalletId := 30,
        settings := { antisniping := none, minBid := none, minBidDifference := none },
        rounds := [{ startTime := 0, endTime := 1000, status := AuctionStatus.active,
                     processingStatus := none, itemIds := [100] }] },
    wallets := [⟨10, 1, 1000, 0⟩, ⟨20, 2, 1000, 0⟩, ⟨30, 3, 1000, 0⟩],
    bids := [],
    items := [⟨100, 1, 3⟩],
    txns := [] }

/-- Bid of user 1 for 100. -/
def dtoA : BidDto := ⟨1, 5, 100⟩

/-- Bid of user 2 for 50. -/
def dtoB : BidDto := ⟨2, 5, 50⟩

/-- Single-round state after user 1 bids 100 at time 10. -/
def dbOneA : DB := (placeBid dbOne0 dtoA 10).1

/-- Single-round state after user 2 additionally bids 50 at time 20. -/
def dbOneB : DB := (placeBid dbOneA dtoB 20).1

/-- The DETERMINE_WINNERS message for round 0 of auction 5. -/
def msgDW0 : StageMsg := ⟨5, 0, Stage.determineWinners⟩

/-- Single-round state after the whole staged pipeline for round 0 ran in the
order the consumer publishes it. -/
def dbOneDone : DB := followStages 6 dbOneB msgDW0

/-- Single-round state after a duplicate DETERMINE_WINNERS delivery. -/
def dbOneDupDW : DB := (executeStage (executeStage dbOneB msgDW0).1 msgDW0).1

/-- Single-round completed state after a replayed PROCESS_PAYMENTS delivery. -/
def dbOneReplayPP : DB := (executeStage dbOneDone ⟨5, 0, Stage.processPayments⟩).1

/-- Two-round auction state before any bid: item 100 in round 0 (ends 1000),
item 101 in round 1 (ends 2000). -/
def dbTwo0 : DB :=
  { auction :=
      { id := 5, status := AuctionStatus.active, sellerId := 3, sellerWalletId := 30,
        settings := { antisniping := none, minBid := none, minBidDifference := none },
        rounds := [{ startTime := 0, endTime := 1000, status := AuctionStatus.active,
                     processingStatus := none, itemIds := [100] },
                   { startTime := 1000, endTime := 2000, status := AuctionStatus.active,
                     processingStatus := none, itemIds := [101] }] },
    wallets := [⟨10, 1, 1000, 0⟩, ⟨20, 2, 1000, 0⟩, ⟨30, 3, 1000, 0⟩],
    bids := [],
    items := [⟨100, 1, 3⟩, ⟨101, 2, 3⟩],
    txns := [] }

/-- Two-round state after user 1 bids 100 at time 10. -/
def dbTwoA : DB := (placeBid dbTwo0 dtoA 10).1

/-- Two-round state after user 2 additionally bids 50 at time 20. -/
def dbTwoB : DB := (placeBid dbTwoA dtoB 20).1

/-- Two-round state after the round-0 pipeline (published by the trigger at
time 1500) ran to completion. -/
def dbTwoR0 : DB := followStages 6 dbTwoB msgDW0

/-- Two-round state after the round-1 pipeline (published by the trigger at
time 2500) also ran to completion. -/
def dbTwoFinal : DB := followStages 6 dbTwoR0 ⟨5, 1, Stage.determineWinners⟩

/-- Bids with equal amounts used for the tie-order analysis. -/
def bidTieEarly : Bid := ⟨1, 1, 5, 100, BidStatus.active, 10⟩

/-- The later-created of the two equal-amount bids. -/
def bidTieLate : Bid := ⟨2, 2, 5, 100, BidStatus.active, 20⟩

/-- Single-round, single-item auction with two ACTIVE bids of equal amount
(ids 1 and 2, created at 10 and 20). -/
def dbTie : DB :=
  { auction :=
      { id := 5, status := AuctionStatus.active, sellerId := 3, sellerWalletId := 30,
        settings := { antisniping := none, minBid := none, minBidDifference := none },
        rounds := [{ startTime := 0, endTime := 1000, status := AuctionStatus.active,
                     processingStatus := none, itemIds := [100] }] },
    wallets := [⟨10, 1, 1000, 100⟩, ⟨20, 2, 1000, 100⟩, ⟨30, 3, 1000, 0⟩],
    bids := [bidTieEarly, bidTieLate],
    items := [⟨100, 1, 3⟩],
    txns := [] }

/-- The round of `dbTie`. -/
def tieRound : AuctionRound :=
  { startTime := 0, endTime := 1000, status := AuctionStatus.active,
    processingStatus := none, itemIds := [100] }

/-- Round whose `itemIds` match no item document: its item query is empty,
so the bid query of `_getEntities` runs with `limit(0)` — no limit. -/
def noItemsRound : AuctionRound :=
  { startTime := 0, endTime := 1000, status := AuctionStatus.active,
    processingStatus := none, itemIds := [] }

/-- Single-round auction whose round references no items, with two ACTIVE
bids of amounts 100 and 50. -/
def dbNoItems : DB :=
  { auction :=
      { id := 5, status := AuctionStatus.active, sellerId := 3, sellerWalletId := 30,
        settings := { antisniping := none, minBid := none, minBidDifference := none },
        rounds := [noItemsRound] },
    wallets := [⟨10, 1, 1000, 100⟩, ⟨20, 2, 1000, 50⟩, ⟨30, 3, 1000, 0⟩],
    bids := [⟨1, 1, 5, 100, BidStatus.active, 10⟩, ⟨2, 2, 5, 50, BidStatus.active, 20⟩],
    items := [],
    txns := [] }

/-- Two-round auction with anti-sniping of 60 seconds: round ends at 30000 ms
and 100000 ms. Used to instantiate the anti-sniping theorem. -/
def dbSnipe : DB :=
  { auction :=
      { id := 5, status := AuctionStatus.active, sellerId := 3, sellerWalletId := 30,
        settings := { antisniping := some 60, minBid := none, minBidDifference := none },
        rounds := [{ startTime := 0, endTime := 30000, status := AuctionStatus.active,
                     processingStatus := none, itemIds := [100] },
                   { startTime := 30000, endTime := 100000, status := AuctionStatus.active,
                     processingStatus := none, itemIds := [101] }] },
    wallets := [⟨10, 1, 1000, 0⟩, ⟨30, 3, 1000, 0⟩],
    bids := [],
    items := [⟨100, 1, 3⟩, ⟨101, 2, 3⟩],
    txns := [] }

/-! ### Claim C1 -/

/-- C1: refuted on the code. The claim asserts `0 ≤ lockedBalance ≤ balance`
for every wallet at every state reachable by placeBid calls and the staged
finalization delivered once per stage in order. In the two-round scenario
`dbTwo0` (user 1 bids 100, user 2 bids 50, both accepted), the round-0
pipeline completes normally, but the round-1 PROCESS_PAYMENTS stage selects
WON bids auction-wide (`wonAuctionBids`), so the already-paid round-0 winner
outranks the round-1 winner and is charged a second time: the final committed
state has user 1's wallet at balance 800 with lockedBalance -100 < 0. Every
conjunct below replays the code's own message chain (triggers included). -/
theorem c1_locked_balance_invariant_violated :
    (placeBid dbTwo0 dtoA 10).2 = PlaceBidOutcome.ok 100 1000
      ∧ (placeBid dbTwoA dtoB 20).2 = PlaceBidOutcome.ok 50 1000
      ∧ initializeProcessing dbTwoB 5 1500 = some [msgDW0]
      ∧ initializeProcessing dbTwoR0 5 2500 = some [⟨5, 1, Stage.determineWinners⟩]
      ∧ walletOfUser dbTwoFinal 1 = some ⟨10, 1, 800, -100⟩
      ∧ ∃ w ∈ dbTwoFinal.wallets, w.lockedBalance < 0 := by
  refine ⟨by decide, by decide, by decide, by decide, by decide, ⟨⟨10, 1, 800, -100⟩, by decide, by decide⟩⟩

/-! ### Claim C2 -/

/-- C2: refuted on the code. In the single-round scenario the pipeline does
transfer item 100 to the winner (user 1), charge the winner exactly 100 from
balance and lockedBalance, and credit the seller 100 — but the single
TRANSFER transaction it appends carries `fromWalletId = 1`, the winner's
user id (`bid.userId` in source), not the winner's wallet id 10, so no
transaction from the winner's wallet exists. -/
theorem c2_transfer_txn_records_user_id_not_wallet_id :
    itemOfId dbOneDone 100 = some ⟨100, 1, 1⟩
      ∧ walletOfUser dbOneDone 1 = some ⟨10, 1, 900, 0⟩
      ∧ walletOfUser dbOneDone 3 = some ⟨30, 3, 1100, 0⟩
      ∧ dbOneDone.txns.filter (fun t => decide (t.type = TransactionType.transfer))
          = [⟨1, some 30, 100, TransactionType.transfer⟩]
      ∧ (walletOfUser dbOneDone 1).map Wallet.id = some 10
      ∧ ¬ ∃ t ∈ dbOneDone.txns, t.type = TransactionType.transfer ∧ t.fromWalletId = 10 := by
  refine ⟨by decide, by decide, by decide, by decide, by decide, by decide⟩

/-! ### Claim C3 -/

/-- C3: refuted on the code. `_executeStage` checks only that the auction and
the round exist; no stage re-checks `processingStatus`. Redelivering
PROCESS_PAYMENTS to the fully completed single-round state is accepted (it
even publishes REFUND_LOSERS again) and commits another transfer: the sum of
lockedBalances drops from 0 to -100 and a second TRANSFER transaction is
appended, so the replay is not change-free. -/
theorem c3_stage_replay_commits_additional_changes :
    (executeStage dbOneDone ⟨5, 0, Stage.processPayments⟩).2
        = StageResult.ok (some ⟨5, 0, Stage.refundLosers⟩)
      ∧ sumLocked dbOneDone = 0
      ∧ sumLocked dbOneReplayPP = -100
      ∧ sumLocked dbOneReplayPP ≠ sumLocked dbOneDone
      ∧ dbOneReplayPP.txns.length = dbOneDone.txns.length + 1 := by
  refine ⟨by decide, by decide, by decide, by decide, by decide⟩

/-! ### Claim C4 -/

/-- C4: refuted on the code. With round 0 ended (now = 1500) the trigger
publishes DETERMINE_WINNERS and its execution marks one bid WON; the round
is still mid-pipeline (`round.status` stays ACTIVE until FINALIZE), so a
duplicate trigger passes `_initializeProcessing`'s precondition checks and
republishes DETERMINE_WINNERS, whose execution marks a second, losing bid
WON — an additional committed winner marking caused by the duplicate. -/
theorem c4_duplicate_trigger_mid_pipeline_not_harmless :
    initializeProcessing dbOneB 5 1500 = some [msgDW0]
      ∧ countWonBids (executeStage dbOneB msgDW0).1 = 1
      ∧ initializeProcessing (executeStage dbOneB msgDW0).1 5 1500 = some [msgDW0]
      ∧ countWonBids dbOneDupDW = 2 := by
  refine ⟨by decide, by decide, by decide, by decide⟩

/-! ### Claim C9 -/

/-- C9: refuted on the code. `acquireLock` has no TTL parameter and stores
the token with `cacheManager.set(lockKey, lockToken)` — no expiry — so the
entry it creates is `(key, token, none)` and is still live at every later
time; the 30 s / 15 s TTLs the Bid Service requests never reach the store
(`withLock` recognizes only `timeoutMs`/`maxAttempts`). -/
theorem c9_acquire_lock_stores_no_ttl :
    acquireLock [] 5 99 = ([LockEntry.mk 5 99 none], some 99)
      ∧ (∀ now : Time, entryLiveAt (LockEntry.mk 5 99 none) now = true)
      ∧ cacheGet (acquireLock [] 5 99).1 5 = some 99 := by
  refine ⟨by decide, fun now => rfl, by decide⟩

/-! ### Claim C5 -/

/-- C5: counterexample. The `_getEntities` query sorts ACTIVE bids by amount
only, so the ordering `[bidTieLate, bidTieEarly]` — the later-created bid of
two equal-amount bids first — is an admissible store result
(`IsAmountDescOrderOf`): under it, DETERMINE_WINNERS marks the later-created
bid WON and leaves the earlier one ACTIVE, contradicting the claimed
`createdAt ASC` tie-break. Moreover the claimed count is wrong for a round
whose item query is empty: `limit(0)` means no limit, so with 0 items and 2
ACTIVE bids the stage marks 2 bids WON, not `min(0, 2) = 0`. -/
theorem c5_tie_order_counterexample :
    IsAmountDescOrderOf (activeAuctionBids dbTie) [bidTieLate, bidTieEarly]
      ∧ bidTieEarly.amount = bidTieLate.amount
      ∧ bidTieEarly.createdAt < bidTieLate.createdAt
      ∧ bidStatusOf (stageDetermineWinnersWith dbTie 0 tieRound [bidTieLate, bidTieEarly]) 2
          = some BidStatus.won
      ∧ bidStatusOf (stageDetermineWinnersWith dbTie 0 tieRound [bidTieLate, bidTieEarly]) 1
          = some BidStatus.active
      ∧ itemsOfRound dbNoItems noItemsRound = []
      ∧ countWonBids (stageDetermineWinners dbNoItems 0 noItemsRound) = 2 := by
  refine ⟨⟨by decide, ?_⟩, by decide, by decide, by decide, by decide, by decide, by decide⟩
  simp only [List.chain'_cons, List.chain'_singleton, and_true]
  decide

/-- C5 (amended): the ACTIVE bids are taken in some order that is
non-increasing by amount — the tie order among equal amounts is unspecified,
so the earlier `createdAt` is not guaranteed to be preferred — and the first
`limit(len(items))` of that order are marked WON under Mongo limit
semantics: when the round has at least one matching item that is the first
`min(len(items), len(bids))` bids, but when the item query is empty the
limit is 0, which means NO limit, and every ACTIVE bid of the auction is
marked WON. Every bid within the item-count prefix has an amount at least
that of every bid beyond it. -/
theorem c5_amended_winners_top_by_amount (db : DB) (i : Nat) (r : AuctionRound)
    (output : List Bid) (hord : IsAmountDescOrderOf (activeAuctionBids db) output) :
    (stageDetermineWinnersWith db i r output).bids
        = markBidsWon ((mongoLimit (itemsOfRound db r).length output).map Bid.id)
            (setRoundProcessingStatus db i RoundProcessingStatus.processingWinners).bids
      ∧ (∀ b ∈ output, b ∈ activeAuctionBids db)
      ∧ ((itemsOfRound db r).length = 0 →
          mongoLimit (itemsOfRound db r).length output = output)
      ∧ ((itemsOfRound db r).length ≠ 0 →
          mongoLimit (itemsOfRound db r).length output
            = output.take (itemsOfRound db r).length)
      ∧ ∀ x ∈ output.take (itemsOfRound db r).length,
          ∀ y ∈ output.drop (itemsOfRound db r).length, y.amount ≤ x.amount := by
  obtain ⟨hperm, hchain⟩ := hord
  refine ⟨rfl, fun b hb => hperm.mem_iff.mp hb, ?_, ?_, ?_⟩
  · intro hz
    simp [mongoLimit, hz]
  · intro hz
    simp [mongoLimit, hz]
  · have hpw : List.Pairwise amountGE output := List.chain'_iff_pairwise.mp hchain
    have hpw2 : List.Pairwise amountGE
        (output.take (itemsOfRound db r).length ++ output.drop (itemsOfRound db r).length) := by
      rw [List.take_append_drop]
      exact hpw
    exact fun x hx y hy => (List.pairwise_append.mp hpw2).2.2 x hx y hy

/-- C5 witness: the amended theorem instantiated at `dbTie` with the
deterministic order `[bidTieEarly, bidTieLate]`. -/
theorem c5_amended_witness :
    IsAmountDescOrderOf (activeAuctionBids dbTie) [bidTieEarly, bidTieLate]
      ∧ ((stageDetermineWinnersWith dbTie 0 tieRound [bidTieEarly, bidTieLate]).bids
          = markBidsWon ((mongoLimit (itemsOfRound dbTie tieRound).length
                [bidTieEarly, bidTieLate]).map Bid.id)
              (setRoundProcessingStatus dbTie 0 RoundProcessingStatus.processingWinners).bids
        ∧ (∀ b ∈ [bidTieEarly, bidTieLate], b ∈ activeAuctionBids dbTie)
        ∧ ((itemsOfRound dbTie tieRound).length = 0 →
            mongoLimit (itemsOfRound dbTie tieRound).length [bidTieEarly, bidTieLate]
              = [bidTieEarly, bidTieLate])
        ∧ ((itemsOfRound dbTie tieRound).length ≠ 0 →
            mongoLimit (itemsOfRound dbTie tieRound).length [bidTieEarly, bidTieLate]
              = [bidTieEarly, bidTieLate].take (itemsOfRound dbTie tieRound).length)
        ∧ ∀ x ∈ [bidTieEarly, bidTieLate].take (itemsOfRound dbTie tieRound).length,
            ∀ y ∈ [bidTieEarly, bidTieLate].drop (itemsOfRound dbTie tieRound).length,
              y.amount ≤ x.amount) := by
  have hord : IsAmountDescOrderOf (activeAuctionBids dbTie) [bidTieEarly, bidTieLate] := by
    refine ⟨by decide, ?_⟩
    simp only [List.chain'_cons, List.chain'_singleton, and_true]
    decide
  exact ⟨hord, c5_amended_winners_top_by_amount dbTie 0 tieRound [bidTieEarly, bidTieLate] hord⟩

/-! ### Claim C6 -/

/-- C6: every mutation of `_placeBid` runs inside the session that
`_placeBidWithTransaction` aborts on any thrown error, so an erroring
`placeBid` commits the original state unchanged — wallet, bids, transactions
and rounds included. -/
theorem c6_error_leaves_state_unchanged (db : DB) (dto : BidDto) (now : Time) (e : BidError)
    (h : (placeBid db dto now).2 = PlaceBidOutcome.error e) :
    (placeBid db dto now).1 = db := by
  unfold placeBid at h ⊢
  cases htx : placeBidTx db dto now with
  | ok p =>
    rw [htx] at h
    obtain ⟨db2, t⟩ := p
    simp at h
  | error e2 => rfl

/-- C6 witness: at time 2000 the single round of `dbOne0` has ended, the bid
is rejected, and the committed state is exactly `dbOne0`. -/
theorem c6_witness :
    (placeBid dbOne0 dtoA 2000).2 = PlaceBidOutcome.error BidError.auctionEnded
      ∧ (placeBid dbOne0 dtoA 2000).1 = dbOne0 := by
  refine ⟨by decide, c6_error_leaves_state_unchanged dbOne0 dtoA 2000 BidError.auctionEnded (by decide)⟩

/-! ### Claim C10 -/

/-- Error shape of `getAuction` when `minBid` is undefined: the minimum-bid
comparison is a JS comparison with `undefined`, hence false. -/
theorem getAuction_minBid_none_ne (db : DB) (dto : BidDto) (now : Time) (e : BidError)
    (hmin : db.auction.settings.minBid = none)
    (h : getAuction db dto now = Except.error e) : e ≠ BidError.belowMinBid := by
  unfold getAuction at h
  rw [hmin] at h
  simp only [ltOpt] at h
  by_cases h1 : dto.auctionId ≠ db.auction.id
  · rw [if_pos h1] at h
    injection h with h2
    subst h2
    simp
  · rw [if_neg h1] at h
    by_cases h2 : (db.auction.status ≠ AuctionStatus.active
        ∨ (db.auction.rounds.all fun r => decide (r.endTime < now)) = true
        ∨ (db.auction.rounds.all fun r => decide (r.status ≠ AuctionStatus.active)) = true)
    · rw [if_pos h2] at h
      injection h with h3
      subst h3
      simp
    · rw [if_neg h2] at h
      simp at h

/-- Error shape of `getMyBit` when `minBid` is undefined. -/
theorem getMyBit_minBid_none_ne (db : DB) (dto : BidDto) (e : BidError)
    (hmin : db.auction.settings.minBid = none)
    (h : getMyBit db dto = Except.error e) : e ≠ BidError.belowMinBid := by
  unfold getMyBit at h
  rw [hmin] at h
  simp only [ltOpt] at h
  cases hh : (sortBidsByAmountDesc (activeBidsOfUser db dto)).head? with
  | none => rw [hh] at h; simp at h
  | some myBid =>
    simp only [hh] at h
    by_cases h1 : dto.amount ≤ myBid.amount
    · rw [if_pos h1] at h
      injection h with h2
      subst h2
      simp
    · rw [if_neg h1] at h
      simp only [Bool.false_eq_true, if_false] at h
      by_cases h2 : ltAddOpt dto.amount myBid.amount db.auction.settings.minBidDifference = true
      · rw [if_pos h2] at h
        injection h with h3
        subst h3
        simp
      · rw [if_neg h2] at h
        simp at h

/-- The wallet lookup fails only with `walletNotFound`. -/
theorem getMyWallet_error_shape (db : DB) (dto : BidDto) (e : BidError)
    (h : getMyWallet db dto = Except.error e) : e = BidError.walletNotFound := by
  unfold getMyWallet at h
  cases hh : db.wallets.find? (fun w => decide (w.userId = dto.userId)) with
  | none => rw [hh] at h; simp_all
  | some w => rw [hh] at h; simp_all

/-- The raise path fails only with `notEnough`. -/
theorem updateBid_error_shape (db : DB) (dto : BidDto) (w : Wallet) (b : Bid) (e : BidError)
    (h : updateBid db dto w b = Except.error e) : e = BidError.notEnough := by
  simp only [updateBid] at h
  split_ifs at h
  simp_all

/-- The first-bid path fails only with `notEnough`. -/
theorem createBid_error_shape (db : DB) (dto : BidDto) (w : Wallet) (now : Time) (e : BidError)
    (h : createBid db dto w now = Except.error e) : e = BidError.notEnough := by
  simp only [createBid] at h
  split_ifs at h
  simp_all

/-- The anti-sniping step fails only with `auctionEnded`. -/
theorem checkAntisniping_error_shape (db : DB) (now : Time) (e : BidError)
    (h : checkAntisniping db now = Except.error e) : e = BidError.auctionEnded := by
  simp only [checkAntisniping] at h
  cases hh : ((antisnipedRounds db.auction now).find?
      (fun r => decide (now < r.endTime))).map AuctionRound.endTime with
  | none => rw [hh] at h; simp_all
  | some t => rw [hh] at h; simp_all

/-- Errors of the bid-placement transaction body are never `belowMinBid` when
`minBid` is undefined. -/
theorem placeBidTx_minBid_none_ne (db : DB) (dto : BidDto) (now : Time) (e : BidError)
    (hmin : db.auction.settings.minBid = none)
    (h : placeBidTx db dto now = Except.error e) : e ≠ BidError.belowMinBid := by
  unfold placeBidTx at h
  cases hga : getAuction db dto now with
  | error e1 =>
    simp only [hga, Except.error.injEq] at h
    subst h
    exact getAuction_minBid_none_ne db dto now _ hmin hga
  | ok a =>
    simp only [hga] at h
    cases hmb : getMyBit db dto with
    | error e2 =>
      simp only [hmb, Except.error.injEq] at h
      subst h
      exact getMyBit_minBid_none_ne db dto _ hmin hmb
    | ok ob =>
      simp only [hmb] at h
      cases hw : getMyWallet db dto with
      | error e3 =>
        simp only [hw, Except.error.injEq] at h
        subst h
        rw [getMyWallet_error_shape db dto _ hw]
        simp
      | ok w =>
        simp only [hw] at h
        cases ob with
        | none =>
          cases hcb : createBid db dto w now with
          | error e4 =>
            simp only [hcb, Except.error.injEq] at h
            subst h
            rw [createBid_error_shape db dto w now _ hcb]
            simp
          | ok db2 =>
            simp only [hcb] at h
            rw [checkAntisniping_error_shape db2 now e h]
            simp
        | some b =>
          cases hub : updateBid db dto w b with
          | error e4 =>
            simp only [hub, Except.error.injEq] at h
            subst h
            rw [updateBid_error_shape db dto w b _ hub]
            simp
          | ok db2 =>
            simp only [hub] at h
            rw [checkAntisniping_error_shape db2 now e h]
            simp

/-- C10: when `settings.minBid` is undefined, no `placeBid` call is ever
rejected for being below the minimum bid — the check passes vacuously on
both the first-bid and the raise path (JS `<` against `undefined`). -/
theorem c10_min_bid_vacuous_when_undefined (db : DB) (dto : BidDto) (now : Time)
    (hmin : db.auction.settings.minBid = none) :
    (placeBid db dto now).2 ≠ PlaceBidOutcome.error BidError.belowMinBid := by
  unfold placeBid
  cases htx : placeBidTx db dto now with
  | ok p =>
    obtain ⟨db2, t⟩ := p
    simp
  | error e =>
    have he : e ≠ BidError.belowMinBid := placeBidTx_minBid_none_ne db dto now e hmin htx
    simpa using he

/-- C10 witness: `dbOne0` omits `minBid`, and the concrete bid is not
rejected with the minimum-bid error. -/
theorem c10_witness :
    dbOne0.auction.settings.minBid = none
      ∧ (placeBid dbOne0 dtoA 10).2 ≠ PlaceBidOutcome.error BidError.belowMinBid :=
  ⟨rfl, c10_min_bid_vacuous_when_undefined dbOne0 dtoA 10 rfl⟩

/-! ### Claim C8 -/

/-- The anti-sniping iteration only touches rounds with `now < endTime`, so it
is the identity when every round has already ended. -/
theorem antisnipePush_no_window (a : Nat) (now t : Time) (l : List AuctionRound)
    (hall : ∀ r ∈ l, r.endTime ≤ now) : antisnipePush a now t l = l := by
  induction l generalizing t with
  | nil => rfl
  | cons r rs ih =>
    have hr : r.endTime ≤ now := hall r (List.mem_cons_self r rs)
    have hnw : ¬ now < r.endTime := not_lt.mpr hr
    simp only [antisnipePush, if_neg hnw]
    rw [ih t (fun s hs => hall s (List.mem_cons_of_mem r hs))]

/-- When every round has ended (`endTime ≤ now`) the anti-sniping step finds
no round with `endTime > now` and rejects with the auction-ended error. -/
theorem checkAntisniping_all_ended (db : DB) (now : Time)
    (hall : ∀ r ∈ db.auction.rounds, r.endTime ≤ now) :
    checkAntisniping db now = Except.error BidError.auctionEnded := by
  have hrounds : antisnipedRounds db.auction now = db.auction.rounds := by
    unfold antisnipedRounds
    cases ha : db.auction.settings.antisniping with
    | none => rfl
    | some a =>
      show (if a ≠ 0 then antisnipePush a now (now + 1000 * a) db.auction.rounds
            else db.auction.rounds) = db.auction.rounds
      by_cases hz : a ≠ 0
      · rw [if_pos hz]
        exact antisnipePush_no_window a now (now + 1000 * a) db.auction.rounds hall
      · rw [if_neg hz]
  have hfind : (antisnipedRounds db.auction now).find? (fun r => decide (now < r.endTime)) = none := by
    rw [hrounds]
    apply List.find?_eq_none.mpr
    intro r hr
    simp only [decide_eq_true_eq]
    exact not_lt.mpr (hall r hr)
  simp only [checkAntisniping, hfind, Option.map_none']

/-- The raise path never touches the auction document. -/
theorem updateBid_ok_auction (db : DB) (dto : BidDto) (w : Wallet) (b : Bid) (db2 : DB)
    (h : updateBid db dto w b = Except.ok db2) : db2.auction = db.auction := by
  simp only [updateBid] at h
  split_ifs at h
  cases h
  rfl

/-- The first-bid path never touches the auction document. -/
theorem createBid_ok_auction (db : DB) (dto : BidDto) (w : Wallet) (now : Time) (db2 : DB)
    (h : createBid db dto w now = Except.ok db2) : db2.auction = db.auction := by
  simp only [createBid] at h
  split_ifs at h
  cases h
  rfl

/-- A bid placed when every round has `endTime ≤ now` — in particular exactly
at the end time of the last still-open round — is rejected. -/
theorem placeBid_all_rounds_ended (db : DB) (dto : BidDto) (now : Time)
    (hall : ∀ r ∈ db.auction.rounds, r.endTime ≤ now) :
    ∃ e, (placeBid db dto now).2 = PlaceBidOutcome.error e := by
  unfold placeBid
  cases htx : placeBidTx db dto now with
  | error e => exact ⟨e, rfl⟩
  | ok p =>
    exfalso
    unfold placeBidTx at htx
    cases hga : getAuction db dto now with
    | error e1 => simp [hga] at htx
    | ok a =>
      simp only [hga] at htx
      cases hmb : getMyBit db dto with
      | error e2 => simp [hmb] at htx
      | ok ob =>
        simp only [hmb] at htx
        cases hw : getMyWallet db dto with
        | error e3 => simp [hw] at htx
        | ok w =>
          simp only [hw] at htx
          cases ob with
          | none =>
            cases hcb : createBid db dto w now with
            | error e4 => simp [hcb] at htx
            | ok db2 =>
              simp only [hcb] at htx
              have hax : db2.auction = db.auction := createBid_ok_auction db dto w now db2 hcb
              rw [checkAntisniping_all_ended db2 now (by rw [hax]; exact hall)] at htx
              cases htx
          | some b =>
            cases hub : updateBid db dto w b with
            | error e4 => simp [hub] at htx
            | ok db2 =>
              simp only [hub] at htx
              have hax : db2.auction = db.auction := updateBid_ok_auction db dto w b db2 hub
              rw [checkAntisniping_all_ended db2 now (by rw [hax]; exact hall)] at htx
              cases htx

/-- C8: counterexample. In `dbOne0` the single round ends at 1000. At
`now = 1000` (t == endTime) the bid is indeed rejected, but the trigger
handler publishes no stage message for the round (it requires the strict
`endTime < now`) and the scheduler query does not match the auction — the
round is not yet treated as ended, contradicting the claimed eligibility at
`t == endTime`; it becomes eligible only at 1001. -/
theorem c8_boundary_counterexample :
    (placeBid dbOne0 dtoA 1000).2 = PlaceBidOutcome.error BidError.auctionEnded
      ∧ triggeredIndices dbOne0 5 1000 = []
      ∧ schedulerMatches dbOne0.auction 1000 = false
      ∧ triggeredIndices dbOne0 5 1001 = [0] := by
  refine ⟨by decide, by decide, by decide, by decide⟩

/-- C8 (amended): a bid at `t == endTime` of the last still-open round is
rejected, but the round is NOT yet eligible for finalization at that
instant: the trigger handler enqueues a round exactly when
`status == ACTIVE` and `endTime < now` (strict), and the scheduler matches
an auction exactly when it is ACTIVE and some round has `endTime < now` and
some round is ACTIVE — both treat the round as ended only strictly after
`endTime`. -/
theorem c8_amended_strict_finalization_boundary (db : DB) (dto : BidDto) (now : Time)
    (aid : Id) (i : Nat)
    (hall : ∀ r ∈ db.auction.rounds, r.endTime ≤ now) :
    (∃ e, (placeBid db dto now).2 = PlaceBidOutcome.error e)
      ∧ (i ∈ triggeredIndices db aid now ↔
          aid = db.auction.id ∧ db.auction.status = AuctionStatus.active
            ∧ ∃ r, db.auction.rounds[i]? = some r
                ∧ r.status = AuctionStatus.active ∧ r.endTime < now)
      ∧ (schedulerMatches db.auction now = true ↔
          db.auction.status = AuctionStatus.active
            ∧ (∃ r ∈ db.auction.rounds, r.endTime < now)
            ∧ (∃ r ∈ db.auction.rounds, r.status = AuctionStatus.active)) := by
  refine ⟨placeBid_all_rounds_ended db dto now hall, ?_, ?_⟩
  · unfold triggeredIndices initializeProcessing
    by_cases h1 : aid ≠ db.auction.id
    · rw [if_pos h1]
      simp [h1]
    · rw [if_neg h1]
      push_neg at h1
      by_cases h2 : db.auction.status ≠ AuctionStatus.active
      · rw [if_pos h2]
        simp [h1, h2]
      · rw [if_neg h2]
        push_neg at h2
        simp only [Option.getD_some, List.map_map, List.mem_map, Function.comp_apply,
          List.mem_filter, List.mem_range, h1, h2, true_and]
        cases hro : db.auction.rounds[i]? with
        | none =>
          constructor
          · rintro ⟨j, ⟨hjlen, hpj⟩, hji⟩
            subst hji
            rw [hro] at hpj
            cases hpj
          · rintro ⟨r, hr, _⟩
            cases hr
        | some r =>
          have hlen : i < db.auction.rounds.length := by
            cases List.getElem?_eq_some.mp hro with
            | intro hw hv => exact hw
          constructor
          · rintro ⟨j, ⟨hjlen, hpj⟩, hji⟩
            subst hji
            rw [hro] at hpj
            simp only [Bool.and_eq_true, decide_eq_true_eq] at hpj
            exact ⟨r, rfl, hpj.1, hpj.2⟩
          · rintro ⟨r2, hr2, hst, hend⟩
            injection hr2 with hr2
            subst hr2
            refine ⟨i, ⟨hlen, ?_⟩, rfl⟩
            rw [hro]
            simp only [Bool.and_eq_true, decide_eq_true_eq]
            exact ⟨hst, hend⟩
  · unfold schedulerMatches
    simp [List.any_eq_true, and_assoc]

/-- C8 witness: the amended theorem instantiated at `dbOne0` with
`now = 1000 == endTime`. -/
theorem c8_amended_witness :
    (∀ r ∈ dbOne0.auction.rounds, r.endTime ≤ 1000)
      ∧ ((∃ e, (placeBid dbOne0 dtoA 1000).2 = PlaceBidOutcome.error e)
        ∧ (0 ∈ triggeredIndices dbOne0 5 1000 ↔
            5 = dbOne0.auction.id ∧ dbOne0.auction.status = AuctionStatus.active
              ∧ ∃ r, dbOne0.auction.rounds[0]? = some r
                  ∧ r.status = AuctionStatus.active ∧ r.endTime < 1000)
        ∧ (schedulerMatches dbOne0.auction 1000 = true ↔
            dbOne0.auction.status = AuctionStatus.active
              ∧ (∃ r ∈ dbOne0.auction.rounds, r.endTime < 1000)
              ∧ (∃ r ∈ dbOne0.auction.rounds, r.status = AuctionStatus.active))) := by
  refine ⟨by decide, c8_amended_strict_finalization_boundary dbOne0 dtoA 1000 5 0 (by decide)⟩

/-! ### Claim C7 -/

/-- The anti-sniping adjustment never shortens a round: the adjusted list is
pointwise at least the original, position by position. -/
theorem antisnipePush_never_shortens (a : Nat) (now : Time) :
    ∀ (t : Time) (l : List AuctionRound), List.Forall₂ endTimeLE l (antisnipePush a now t l) := by
  intro t l
  induction l generalizing t with
  | nil => exact List.Forall₂.nil
  | cons r rs ih =>
    by_cases hw : now < r.endTime
    · by_cases hp : t > r.endTime
      · have heq : antisnipePush a now t (r :: rs)
            = { r with endTime := t } :: antisnipePush a now (t + 1000 * a) rs := by
          simp [antisnipePush, hw, hp]
        rw [heq]
        exact List.Forall₂.cons (le_of_lt hp) (ih (t + 1000 * a))
      · have heq : antisnipePush a now t (r :: rs) = r :: antisnipePush a now t rs := by
          simp [antisnipePush, hw, hp]
        rw [heq]
        exact List.Forall₂.cons le_rfl (ih t)
    · have heq : antisnipePush a now t (r :: rs) = r :: antisnipePush a now t rs := by
        simp [antisnipePush, hw]
      rw [heq]
      exact List.Forall₂.cons le_rfl (ih t)

/-- Head of the anti-sniping iteration on a nonempty list: the head round is
pushed to the threshold exactly when it is in the window and below it. -/
theorem antisnipePush_head (a : Nat) (now t : Time) (r : AuctionRound) (rs : List AuctionRound) :
    (antisnipePush a now t (r :: rs)).head?
      = some (if now < r.endTime ∧ t > r.endTime then { r with endTime := t } else r) := by
  by_cases hw : now < r.endTime
  · by_cases hp : t > r.endTime
    · simp [antisnipePush, hw, hp]
    · simp [antisnipePush, hw, hp]
  · simp [antisnipePush, hw]

/-- The anti-sniping iteration preserves the chronological order of the
rounds list. -/
theorem antisnipePush_chain (a : Nat) (now : Time) (l : List AuctionRound) :
    ∀ t : Time, List.Chain' endTimeLE l → List.Chain' endTimeLE (antisnipePush a now t l) := by
  induction l with
  | nil => intro t _; exact List.chain'_nil
  | cons r rs ih =>
    intro t hch
    rw [List.chain'_cons'] at hch
    obtain ⟨hhead, htail⟩ := hch
    by_cases hw : now < r.endTime
    · by_cases hp : t > r.endTime
      · have heq : antisnipePush a now t (r :: rs)
            = { r with endTime := t } :: antisnipePush a now (t + 1000 * a) rs := by
          simp [antisnipePush, hw, hp]
        rw [heq, List.chain'_cons']
        refine ⟨?_, ih (t + 1000 * a) htail⟩
        intro y hy
        cases rs with
        | nil => simp [antisnipePush] at hy
        | cons r2 rs2 =>
          rw [antisnipePush_head] at hy
          simp only [Option.mem_def, Option.some.injEq] at hy
          subst hy
          have hr12 : r.endTime ≤ r2.endTime := hhead r2 rfl
          by_cases hc : now < r2.endTime ∧ t + 1000 * a > r2.endTime
          · rw [if_pos hc]
            show t ≤ t + 1000 * a
            exact Nat.le_add_right t (1000 * a)
          · rw [if_neg hc]
            show t ≤ r2.endTime
            have hnw2 : now < r2.endTime := lt_of_lt_of_le hw hr12
            have hle : t + 1000 * a ≤ r2.endTime := not_lt.mp (fun hgt => hc ⟨hnw2, hgt⟩)
            exact le_trans (Nat.le_add_right t (1000 * a)) hle
      · have heq : antisnipePush a now t (r :: rs) = r :: antisnipePush a now t rs := by
          simp [antisnipePush, hw, hp]
        rw [heq, List.chain'_cons']
        refine ⟨?_, ih t htail⟩
        intro y hy
        cases rs with
        | nil => simp [antisnipePush] at hy
        | cons r2 rs2 =>
          rw [antisnipePush_head] at hy
          simp only [Option.mem_def, Option.some.injEq] at hy
          subst hy
          have hr12 : r.endTime ≤ r2.endTime := hhead r2 rfl
          by_cases hc : now < r2.endTime ∧ t > r2.endTime
          · rw [if_pos hc]
            show r.endTime ≤ t
            exact le_of_lt (lt_of_le_of_lt hr12 hc.2)
          · rw [if_neg hc]
            exact hr12
    · have heq : antisnipePush a now t (r :: rs) = r :: antisnipePush a now t rs := by
        simp [antisnipePush, hw]
      rw [heq, List.chain'_cons']
      refine ⟨?_, ih t htail⟩
      intro y hy
      cases rs with
      | nil => simp [antisnipePush] at hy
      | cons r2 rs2 =>
        rw [antisnipePush_head] at hy
        simp only [Option.mem_def, Option.some.injEq] at hy
        subst hy
        have hr12 : r.endTime ≤ r2.endTime := hhead r2 rfl
        by_cases hc : now < r2.endTime ∧ t > r2.endTime
        · rw [if_pos hc]
          show r.endTime ≤ t
          exact le_of_lt (lt_of_le_of_lt hr12 hc.2)
        · rw [if_neg hc]
          exact hr12

/-- On a chronologically ordered round list, the first round found with
`endTime > now` has the minimal end time among all rounds beyond `now`. -/
theorem find_first_endTime_min (now : Time) :
    ∀ l : List AuctionRound, List.Chain' endTimeLE l →
      ∀ r2 ∈ l, now < r2.endTime →
        ∃ r0, l.find? (fun r => decide (now < r.endTime)) = some r0
          ∧ now < r0.endTime ∧ r0.endTime ≤ r2.endTime := by
  intro l
  induction l with
  | nil => intro _ r2 hmem; cases hmem
  | cons x xs ih =>
    intro hch r2 hmem hgt
    have hpw : List.Pairwise endTimeLE (x :: xs) := List.chain'_iff_pairwise.mp hch
    by_cases hx : now < x.endTime
    · refine ⟨x, List.find?_cons_of_pos _ (by simpa using hx), hx, ?_⟩
      rcases List.mem_cons.mp hmem with h | h
      · rw [h]
      · exact (List.pairwise_cons.mp hpw).1 r2 h
    · have hxs : r2 ∈ xs := by
        rcases List.mem_cons.mp hmem with h | h
        · rw [h] at hgt; exact absurd hgt hx
        · exact h
      obtain ⟨r0, hfind, hgt0, hle0⟩ :=
        ih (List.chain'_cons'.mp hch).2 r2 hxs hgt
      refine ⟨r0, ?_, hgt0, hle0⟩
      rw [List.find?_cons_of_neg _ (by simpa using hx)]
      exact hfind

/-- C7: with `antisniping = a > 0` the adjustment is exactly the source loop
(threshold `now + 1000·a`, advanced only when a round is pushed), no round's
end time is ever shortened, and — the rounds being in chronological order —
a successful `_checkAntisniping` returns the adjusted rounds together with
the earliest adjusted end time strictly beyond `now`. -/
theorem c7_antisniping_monotone_and_earliest (db : DB) (now : Time) (a : Nat)
    (hset : db.auction.settings.antisniping = some a) (hpos : a ≠ 0)
    (hsorted : List.Chain' endTimeLE db.auction.rounds) :
    List.Forall₂ endTimeLE db.auction.rounds (antisnipedRounds db.auction now)
      ∧ antisnipedRounds db.auction now
          = antisnipePush a now (now + 1000 * a) db.auction.rounds
      ∧ ∀ db2 t, checkAntisniping db now = Except.ok (db2, t) →
          db2.auction.rounds = antisnipedRounds db.auction now
            ∧ now < t
            ∧ ∀ r2 ∈ db2.auction.rounds, now < r2.endTime → t ≤ r2.endTime := by
  have har : antisnipedRounds db.auction now
      = antisnipePush a now (now + 1000 * a) db.auction.rounds := by
    unfold antisnipedRounds
    simp only [hset]
    rw [if_pos hpos]
  refine ⟨?_, har, ?_⟩
  · rw [har]
    exact antisnipePush_never_shortens a now (now + 1000 * a) db.auction.rounds
  · intro db2 t h
    have hch2 : List.Chain' endTimeLE (antisnipedRounds db.auction now) := by
      rw [har]
      exact antisnipePush_chain a now db.auction.rounds (now + 1000 * a) hsorted
    simp only [checkAntisniping] at h
    cases hfind : (antisnipedRounds db.auction now).find? (fun r => decide (now < r.endTime)) with
    | none =>
      rw [hfind] at h
      simp at h
    | some r0 =>
      rw [hfind] at h
      simp only [Option.map_some'] at h
      injection h with h2
      rw [Prod.mk.injEq] at h2
      obtain ⟨hdb2, ht⟩ := h2
      subst hdb2
      subst ht
      refine ⟨rfl, ?_, ?_⟩
      · have := List.find?_some hfind
        simpa using this
      · intro r2 hr2 hgt
        obtain ⟨r0b, hfindb, _, hleb⟩ :=
          find_first_endTime_min now (antisnipedRounds db.auction now) hch2 r2 hr2 hgt
        rw [hfind] at hfindb
        injection hfindb with he
        rw [he]
        exact hleb

/-- C7 witness: the theorem instantiated at `dbSnipe` (antisniping 60 s,
rounds ending at 30000 and 100000) with `now = 25000`. -/
theorem c7_witness :
    (dbSnipe.auction.settings.antisniping = some 60 ∧ (60 : Nat) ≠ 0
        ∧ List.Chain' endTimeLE dbSnipe.auction.rounds)
      ∧ (List.Forall₂ endTimeLE dbSnipe.auction.rounds (antisnipedRounds dbSnipe.auction 25000)
        ∧ antisnipedRounds dbSnipe.auction 25000
            = antisnipePush 60 25000 (25000 + 1000 * 60) dbSnipe.auction.rounds
        ∧ ∀ db2 t, checkAntisniping dbSnipe 25000 = Except.ok (db2, t) →
            db2.auction.rounds = antisnipedRounds dbSnipe.auction 25000
              ∧ 25000 < t
              ∧ ∀ r2 ∈ db2.auction.rounds, 25000 < r2.endTime → t ≤ r2.endTime) := by
  have hch : List.Chain' endTimeLE dbSnipe.auction.rounds := by
    simp only [dbSnipe, List.chain'_cons, List.chain'_singleton, and_true]
    decide
  exact ⟨⟨rfl, by decide, hch⟩,
    c7_antisniping_monotone_and_earliest dbSnipe 25000 60 rfl (by decide) hch⟩

end Auctionus
